import Mathlib

/-!
Shallow embedding of the go-ipset wrapper (package `ipset`, files
`ipset.go` and `internal.go`).  The external `ipset` binary is modelled
as an oracle `Invocation → ExecResult`; every wrapper operation returns
its Go result together with the exact list of subprocess invocations it
performed, in order.  Go `error` values are modelled as `Option String`
(`none` = nil error, `some msg` = an error whose text is `msg`); Go
`(T, error)` results whose success and failure payloads are exclusive
are modelled as `Except String T`.  Go `int` is modelled as `Int` and
`strconv.Itoa` as `toString` (both print base-10 with a leading minus
sign for negatives).
-/

set_option autoImplicit false

/-- Character class of RE2's `\s`, namely `[\t\n\f\r ]` (note: this differs
from `Char.isWhitespace`, which lacks the form feed). -/
def isSpaceRE2 (c : Char) : Bool :=
  c = ' ' || c = '\t' || c = '\n' || c = '\x0c' || c = '\r'

/-- Negation of `isSpaceRE2`, the character class `[^\s]` of RE2. -/
def notSpace (c : Char) : Bool := ! isSpaceRE2 c

/-- Substring test: models a match of a literal regex (such as `is in set`)
against a byte string, i.e. `pat` occurs contiguously inside `s`. -/
def isSubstring (pat : List Char) : List Char → Bool
  | [] => pat.isEmpty
  | c :: rest => pat.isPrefixOf (c :: rest) || isSubstring pat rest

/-- Models Go `strings.Split` on a one-character separator: splits `s` at
every occurrence of `d`, keeping empty segments, never returning `[]`. -/
def splitOnChar (d : Char) : List Char → List (List Char)
  | [] => [[]]
  | c :: rest =>
    match splitOnChar d rest with
    | [] => [[c]]
    | l :: ls => if c = d then [] :: l :: ls else (c :: l) :: ls

/-- Splits off the first line of `s`: returns `some (line, rest)` when `s`
contains a newline (`line` is the text before the first `'\n'`, `rest` the
text after it) and `none` when it does not. -/
def breakLine : List Char → Option (List Char × List Char)
  | [] => none
  | c :: rest =>
    if c = '\n' then some ([], rest)
    else
      match breakLine rest with
      | none => none
      | some (l, r) => some (c :: l, r)

/-! ### Model of `github.com/coreos/go-semver/semver` for the inputs this
wrapper constructs (dotted numeric triples; the pre-release and metadata
parts are always empty here because the version strings fed to
`NewVersion` consist of digits and dots only). -/

/-- Models `strconv.ParseInt(s, 10, 64)`: an optional sign, then a
non-empty run of decimal digits, rejected outside the `int64` range. -/
def parseInt64 (l : List Char) : Option Int :=
  let core : Int → List Char → Option Int := fun sign ds =>
    if ds.isEmpty then none
    else if ds.all Char.isDigit then
      let n : Nat := ds.foldl (fun a c => a * 10 + (c.toNat - 48)) 0
      let v : Int := sign * (n : Int)
      if -(2 ^ 63) ≤ v ∧ v ≤ 2 ^ 63 - 1 then some v else none
    else none
  match l with
  | '+' :: ds => core 1 ds
  | '-' :: ds => core (-1) ds
  | ds => core 1 ds

/-- Models go-semver's `splitOff(&input, delim)` (a `strings.SplitN` with
limit 2): returns the text before the first `d` and the text after it,
or `(s, [])` when `d` does not occur. -/
def splitOffChar (d : Char) (s : List Char) : List Char × List Char :=
  match splitOnChar d s with
  | [] => (s, [])
  | [_] => (s, [])
  | a :: rest => (a, List.intercalate [d] rest)

/-- Models `strings.SplitN(s, d, 3)`: at most three parts, the third one
keeping any further separators. -/
def splitN3Char (d : Char) (s : List Char) : List (List Char) :=
  match splitOnChar d s with
  | a :: b :: c :: rest => [a, b, List.intercalate [d] (c :: rest)]
  | l => l

/-- Semantic version as in go-semver (`Major`, `Minor`, `Patch` are
`int64`; the metadata part is dropped by `Set` before comparison). -/
structure Version where
  major : Int
  minor : Int
  patch : Int
  preRelease : String
deriving DecidableEq

/-- Models go-semver `NewVersion`/`Version.Set`: strip metadata after `+`,
strip the pre-release after `-`, split the rest into exactly three dotted
parts and parse each as an `int64`.  (Inputs reaching this function in the
wrapper contain only digits and dots, so the stripping steps are inert.) -/
def newVersion (l : List Char) : Option Version :=
  let v1 := (splitOffChar '+' l).1
  let s2 := splitOffChar '-' v1
  match splitN3Char '.' s2.1 with
  | [a, b, c] =>
    match parseInt64 a, parseInt64 b, parseInt64 c with
    | some ma, some mi, some pa => some ⟨ma, mi, pa, String.mk s2.2⟩
    | _, _, _ => none
  | _ => none

/-- Models go-semver's pre-release comparison as used by `LessThan` for the
versions arising here: two equal (in particular two empty) pre-releases
compare equal, an empty one is greater than a non-empty one.  The dotted
segment comparison of two distinct non-empty pre-releases is approximated
lexicographically; it is unreachable from the wrapper, whose version
strings never contain `-`. -/
def preReleaseLess (a b : String) : Bool :=
  if a = b then false
  else if a = "" then false
  else if b = "" then true
  else decide (a < b)

/-- Models go-semver `Version.LessThan`: lexicographic on
(major, minor, patch), then the pre-release comparison. -/
def lessThan (va vb : Version) : Bool :=
  if va.major ≠ vb.major then decide (va.major < vb.major)
  else if va.minor ≠ vb.minor then decide (va.minor < vb.minor)
  else if va.patch ≠ vb.patch then decide (va.patch < vb.patch)
  else preReleaseLess va.preRelease vb.preRelease

/-- Constant `minIPSetVersion` from `ipset.go`. -/
def minIPSetVersion : String := "6.0.0"

/-! ### Model of the regex post-processing.

`checkVersion` uses `regexp.MustCompile("v[0-9]+\\.[0-9]+").FindSubmatch`:
the leftmost match of a `v` followed by a maximal digit run, a dot and a
second maximal digit run (Go's leftmost-first semantics make the greedy
`[0-9]+` take the maximal run, since shortening it can never help the
following `\.` to match). -/

/-- Match of `v[0-9]+\.[0-9]+` anchored at the head of `l`, with greedy
(maximal) digit runs; `none` when the pattern does not match here. -/
def findVerAt (l : List Char) : Option (List Char) :=
  match l with
  | 'v' :: rest =>
    let d1 := rest.takeWhile Char.isDigit
    if d1.isEmpty then none
    else
      match rest.dropWhile Char.isDigit with
      | '.' :: rest2 =>
        let d2 := rest2.takeWhile Char.isDigit
        if d2.isEmpty then none
        else some ('v' :: (d1 ++ '.' :: d2))
      | _ => none
  | _ => none

/-- Leftmost match of `v[0-9]+\.[0-9]+` in `l` (Go `FindSubmatch`),
`none` when the pattern occurs nowhere. -/
def findVer : List Char → Option (List Char)
  | [] => none
  | c :: rest =>
    match findVerAt (c :: rest) with
    | some m => some m
    | none => findVer rest

/-- Version extracted from `ipset --version` output the way `checkVersion`
does it: the leftmost `v[0-9]+\.[0-9]+` match, extended with `".0"`,
stripped of the leading `v` and parsed with go-semver. -/
def extractVersion (stdout : String) : Option Version :=
  match findVer stdout.data with
  | none => none
  | some m => newVersion ((m ++ ['.', '0']).drop 1)

/-! ### Model of the `List`/`ListSorted` stdout parsing.

The code applies two regexes to stdout.  First
`regexp.MustCompile("(?m)^(.*\\n)*Members:\\n").ReplaceAll(stdout, nil)`:
in multiline mode `.` does not match `'\n'`, so `(.*\n)*` consumes a
sequence of complete (newline-terminated) lines; the leftmost match
starts at position 0 and the greedy star consumes lines up to and
including the LAST complete line equal to `Members:`, whenever any such
line exists; afterwards no `Members:` line remains, so there is no
second match.  Second,
`regexp.MustCompile("([^\\s]+).*").FindAllSubmatch(listFull, -1)` with
group 1 collected: a match starts at each earliest non-whitespace
character, group 1 takes the maximal `[^\s]+` run there, and the greedy
`.*` then consumes the remainder of that line (everything up to the next
`'\n'`), so each line contributes the first maximal non-whitespace run it
contains, or nothing when it is all whitespace. -/

theorem dropWhileLenLe (p : Char → Bool) : ∀ l : List Char, (l.dropWhile p).length ≤ l.length := by
  intro l
  induction l with
  | nil => simp [List.dropWhile]
  | cons c rest ih =>
    simp only [List.dropWhile]
    cases p c <;> simp <;> omega

theorem breakLineSomeLength : ∀ (s l r : List Char), breakLine s = some (l, r) → r.length < s.length := by
  intro s
  induction s with
  | nil => intro l r h; simp [breakLine] at h
  | cons c rest ih =>
    intro l r h
    by_cases hc : c = '\n'
    · simp [breakLine, hc] at h
      simp [← h.2]
    · simp only [breakLine, hc, if_false] at h
      cases hb : breakLine rest with
      | none => rw [hb] at h; simp at h
      | some p =>
        obtain ⟨l0, r0⟩ := p
        rw [hb] at h
        simp at h
        have := ih l0 r0 hb
        simp [← h.2]
        omega

/-- Tells whether `s` contains a complete (newline-terminated) line that
is exactly `Members:`, i.e. whether the header regex matches at all. -/
def hasMembersLine (s : List Char) : Bool :=
  match h : breakLine s with
  | none => false
  | some (l, r) => l = "Members:".data || hasMembersLine r
termination_by s.length
decreasing_by exact breakLineSomeLength s l r h

/-- Deletes the (unique, leftmost-greedy) match of
`(?m)^(.*\n)*Members:\n`: everything up to and including the last
complete `Members:` line, or `s` unchanged when no such line exists. -/
def stripHeader (s : List Char) : List Char :=
  match h : breakLine s with
  | none => s
  | some (l, r) =>
    if hasMembersLine r then stripHeader r
    else if l = "Members:".data then r
    else s
termination_by s.length
decreasing_by exact breakLineSomeLength s l r h

/-- Collects group 1 of every match of `([^\s]+).*` in document order:
at a non-whitespace character, emit the maximal non-whitespace run and
skip the rest of the line (`.*` stops before `'\n'`); whitespace between
matches is skipped. -/
def tokens : List Char → List String
  | [] => []
  | c :: rest =>
    if isSpaceRE2 c then tokens rest
    else String.mk (c :: rest.takeWhile notSpace) ::
      tokens (rest.dropWhile (fun x => x ≠ '\n'))
termination_by l => l.length
decreasing_by
· simp
· have := dropWhileLenLe (fun x => decide (x ≠ '\n')) rest
  simp at this ⊢
  omega

/-- Post-processing `List`/`ListSorted` apply to a successful stdout:
strip the header regex match, then collect group 1 of every
`([^\s]+).*` match. -/
def parseMembers (stdout : String) : List String :=
  tokens (stripHeader stdout.data)

/-! ### Specification-side parse, following the words of the claim:
split stdout into lines, drop all lines up to and including the (last
complete) `Members:` line, and return for each remaining line its first
maximal run of non-whitespace characters. -/

/-- First maximal run of non-whitespace characters of a line, `none`
when the line is all whitespace. -/
def lineTok (l : List Char) : Option String :=
  let t := (l.dropWhile isSpaceRE2).takeWhile notSpace
  if t.isEmpty then none else some (String.mk t)

/-- Drops the line parts up to and including the last complete line
`Members:`; `none` when no complete part equals `Members:` (the final
part of a split is the unterminated tail, not a complete line). -/
def dropThroughLastMembers : List (List Char) → Option (List (List Char))
  | [] => none
  | [_] => none
  | p :: rest =>
    match dropThroughLastMembers rest with
    | some r => some r
    | none => if p = "Members:".data then some rest else none

/-- Claim-side description of the member parse: line-based. -/
def specMembers (stdout : String) : List String :=
  let parts := splitOnChar '\n' stdout.data
  let rem := (dropThroughLastMembers parts).getD parts
  rem.filterMap lineTok

/-! ### Lemmas connecting the character-level scan of `stripHeader` and
`tokens` with the line-level description used by the specification. -/

theorem hasMembersLineNone (s : List Char) (h : breakLine s = none) :
    hasMembersLine s = false := by
  rw [hasMembersLine.eq_def]
  split
  · rfl
  · rename_i l r heq; rw [h] at heq; cases heq

theorem hasMembersLineSome (s l r : List Char) (h : breakLine s = some (l, r)) :
    hasMembersLine s = (decide (l = "Members:".data) || hasMembersLine r) := by
  rw [hasMembersLine.eq_def]
  split
  · rename_i heq; rw [h] at heq; cases heq
  · rename_i l2 r2 heq
    rw [h] at heq
    cases heq
    rfl

theorem stripHeaderNone (s : List Char) (h : breakLine s = none) :
    stripHeader s = s := by
  rw [stripHeader.eq_def]
  split
  · rfl
  · rename_i l r heq; rw [h] at heq; cases heq

theorem stripHeaderSome (s l r : List Char) (h : breakLine s = some (l, r)) :
    stripHeader s = (if hasMembersLine r then stripHeader r
      else if l = "Members:".data then r else s) := by
  rw [stripHeader.eq_def]
  split
  · rename_i heq; rw [h] at heq; cases heq
  · rename_i l2 r2 heq
    rw [h] at heq
    cases heq
    rfl

theorem tokensNil : tokens [] = [] := by
  rw [tokens.eq_def]

theorem tokensCons (c : Char) (rest : List Char) :
    tokens (c :: rest) =
      if isSpaceRE2 c then tokens rest
      else String.mk (c :: rest.takeWhile notSpace) ::
        tokens (rest.dropWhile (fun x => x ≠ '\n')) := by
  rw [tokens.eq_def]

theorem splitOnCharNeNil (d : Char) (s : List Char) : splitOnChar d s ≠ [] := by
  induction s with
  | nil => simp [splitOnChar]
  | cons c rest ih =>
    simp only [splitOnChar]
    cases hs : splitOnChar d rest with
    | nil => simp
    | cons l ls => by_cases hc : c = d <;> simp [hc]

theorem breakLineNoneSplit : ∀ s : List Char, breakLine s = none → splitOnChar '\n' s = [s] := by
  intro s
  induction s with
  | nil => intro _; simp [splitOnChar]
  | cons c rest ih =>
    intro h
    by_cases hc : c = '\n'
    · simp [breakLine, hc] at h
    · simp only [breakLine, hc, if_false] at h
      cases hb : breakLine rest with
      | none =>
        have hr := ih hb
        simp [splitOnChar, hr, hc]
      | some p =>
        obtain ⟨l, r⟩ := p
        rw [hb] at h
        simp at h

theorem breakLineSomeSplit :
    ∀ s l r : List Char, breakLine s = some (l, r) →
      splitOnChar '\n' s = l :: splitOnChar '\n' r := by
  intro s
  induction s with
  | nil => intro l r h; simp [breakLine] at h
  | cons c rest ih =>
    intro l r h
    by_cases hc : c = '\n'
    · subst hc
      simp only [breakLine, if_pos rfl] at h
      obtain ⟨h1, h2⟩ := Prod.mk.injEq .. ▸ Option.some.inj h
      subst h1
      subst h2
      cases hs : splitOnChar '\n' rest with
      | nil => exact absurd hs (splitOnCharNeNil _ _)
      | cons a as => simp [splitOnChar, hs]
    · simp only [breakLine, hc, if_false] at h
      cases hb : breakLine rest with
      | none => rw [hb] at h; simp at h
      | some p =>
        obtain ⟨l0, r0⟩ := p
        rw [hb] at h
        simp only [Option.some.injEq, Prod.mk.injEq] at h
        obtain ⟨h1, h2⟩ := h
        subst h1
        subst h2
        cases hs : splitOnChar '\n' rest with
        | nil => exact absurd hs (splitOnCharNeNil _ _)
        | cons a as =>
          have := ih l0 r0 hb
          rw [hs] at this
          simp only [splitOnChar, hs, hc, if_false]
          rw [List.cons.injEq] at this
          simp [this.1, this.2]

theorem breakLineNoneNoNl : ∀ s : List Char, breakLine s = none → '\n' ∉ s := by
  intro s
  induction s with
  | nil => intro _; simp
  | cons c rest ih =>
    intro h
    by_cases hc : c = '\n'
    · simp [breakLine, hc] at h
    · simp only [breakLine, hc, if_false] at h
      cases hb : breakLine rest with
      | none =>
        intro hmem
        rcases List.mem_cons.mp hmem with he | he
        · exact hc he.symm
        · exact ih hb he
      | some p => obtain ⟨l, r⟩ := p; rw [hb] at h; simp at h

theorem breakLineSomeDecomp :
    ∀ s l r : List Char, breakLine s = some (l, r) → s = l ++ '\n' :: r ∧ '\n' ∉ l := by
  intro s
  induction s with
  | nil => intro l r h; simp [breakLine] at h
  | cons c rest ih =>
    intro l r h
    by_cases hc : c = '\n'
    · subst hc
      simp only [breakLine, if_pos rfl] at h
      obtain ⟨h1, h2⟩ := Prod.mk.injEq .. ▸ Option.some.inj h
      subst h1
      subst h2
      simp
    · simp only [breakLine, hc, if_false] at h
      cases hb : breakLine rest with
      | none => rw [hb] at h; simp at h
      | some p =>
        obtain ⟨l0, r0⟩ := p
        rw [hb] at h
        simp only [Option.some.injEq, Prod.mk.injEq] at h
        obtain ⟨h1, h2⟩ := h
        subst h1
        subst h2
        obtain ⟨hd, hn⟩ := ih l0 r0 hb
        constructor
        · simp [← hd]
        · intro hmem
          rcases List.mem_cons.mp hmem with he | he
          · exact hc he.symm
          · exact hn he

theorem takeWhileAppendStop (p : Char → Bool) (y : Char) (ys : List Char)
    (hy : p y = false) :
    ∀ xs : List Char, (xs ++ y :: ys).takeWhile p = xs.takeWhile p := by
  intro xs
  induction xs with
  | nil => simp [List.takeWhile, hy]
  | cons x xs ih =>
    simp only [List.cons_append, List.takeWhile]
    cases p x <;> simp [ih]

theorem dropWhileAppendAll (p : Char → Bool) (ys : List Char) :
    ∀ xs : List Char, (∀ x ∈ xs, p x = true) →
      (xs ++ ys).dropWhile p = ys.dropWhile p := by
  intro xs
  induction xs with
  | nil => intro _; simp
  | cons x xs ih =>
    intro hall
    have hx : p x = true := hall x (by simp)
    simp only [List.cons_append, List.dropWhile, hx]
    exact ih (fun a ha => hall a (by simp [ha]))

theorem dtlmNoneIffAux : ∀ n : Nat, ∀ s : List Char, s.length ≤ n →
    (dropThroughLastMembers (splitOnChar '\n' s) = none ↔ hasMembersLine s = false) := by
  intro n
  induction n with
  | zero =>
    intro s hs
    have hnil : s = [] := List.length_eq_zero.mp (Nat.le_zero.mp hs)
    subst hnil
    rw [hasMembersLineNone [] rfl]
    simp [splitOnChar, dropThroughLastMembers]
  | succ n ih =>
    intro s hs
    cases hb : breakLine s with
    | none =>
      rw [breakLineNoneSplit s hb, hasMembersLineNone s hb]
      simp [dropThroughLastMembers]
    | some p =>
      obtain ⟨l, r⟩ := p
      rw [breakLineSomeSplit s l r hb, hasMembersLineSome s l r hb]
      have hlen : r.length ≤ n := by
        have := breakLineSomeLength s l r hb
        omega
      have ihr := ih r hlen
      cases hsr : splitOnChar '\n' r with
      | nil => exact absurd hsr (splitOnCharNeNil _ _)
      | cons a as =>
        rw [hsr] at ihr
        simp only [dropThroughLastMembers]
        cases hd : dropThroughLastMembers (a :: as) with
        | some t =>
          have hmr : hasMembersLine r = true := by
            cases hm0 : hasMembersLine r with
            | false =>
              have := ihr.mpr hm0
              rw [hd] at this
              cases this
            | true => rfl
          simp [hmr]
        | none =>
          have hmr : hasMembersLine r = false := ihr.mp hd
          by_cases hl : l = "Members:".data <;> simp [hl, hmr]

theorem dtlmNoneIff (s : List Char) :
    dropThroughLastMembers (splitOnChar '\n' s) = none ↔ hasMembersLine s = false :=
  dtlmNoneIffAux s.length s le_rfl

theorem stripSpecAux : ∀ n : Nat, ∀ s : List Char, s.length ≤ n →
    splitOnChar '\n' (stripHeader s) =
      (dropThroughLastMembers (splitOnChar '\n' s)).getD (splitOnChar '\n' s) := by
  intro n
  induction n with
  | zero =>
    intro s hs
    have hnil : s = [] := List.length_eq_zero.mp (Nat.le_zero.mp hs)
    subst hnil
    rw [stripHeaderNone [] rfl]
    simp [splitOnChar, dropThroughLastMembers]
  | succ n ih =>
    intro s hs
    cases hb : breakLine s with
    | none =>
      rw [stripHeaderNone s hb, breakLineNoneSplit s hb]
      simp [dropThroughLastMembers]
    | some p =>
      obtain ⟨l, r⟩ := p
      have hlen : r.length ≤ n := by
        have := breakLineSomeLength s l r hb
        omega
      rw [stripHeaderSome s l r hb, breakLineSomeSplit s l r hb]
      cases hsr : splitOnChar '\n' r with
      | nil => exact absurd hsr (splitOnCharNeNil _ _)
      | cons a as =>
        cases hm : hasMembersLine r with
        | true =>
          have hdn : dropThroughLastMembers (a :: as) ≠ none := by
            intro hn
            have := (dtlmNoneIff r)
            rw [hsr] at this
            rw [this.mp hn] at hm
            cases hm
          cases hd : dropThroughLastMembers (a :: as) with
          | none => exact absurd hd hdn
          | some t =>
            have ihr := ih r hlen
            rw [hsr, hd] at ihr
            simp only [if_pos rfl, dropThroughLastMembers, hd, Option.getD_some]
            simpa using ihr
        | false =>
          have hdn : dropThroughLastMembers (a :: as) = none := by
            have := (dtlmNoneIff r)
            rw [hsr] at this
            exact this.mpr hm
          simp only [Bool.false_eq_true, if_false, dropThroughLastMembers, hdn]
          by_cases hl : l = "Members:".data
          · simp [hl, hsr]
          · simp only [hl, if_false, Option.getD_none]
            rw [breakLineSomeSplit s l r hb, hsr]

theorem stripSpec (s : List Char) :
    splitOnChar '\n' (stripHeader s) =
      (dropThroughLastMembers (splitOnChar '\n' s)).getD (splitOnChar '\n' s) :=
  stripSpecAux s.length s le_rfl

theorem lineTokSpaceCons (c : Char) (l : List Char) (h : isSpaceRE2 c = true) :
    lineTok (c :: l) = lineTok l := by
  simp [lineTok, List.dropWhile, h]

theorem lineTokTokenCons (c : Char) (l : List Char) (h : isSpaceRE2 c = false) :
    lineTok (c :: l) = some (String.mk (c :: l.takeWhile notSpace)) := by
  simp [lineTok, List.dropWhile, List.takeWhile, h, notSpace]

theorem tokensEqAux : ∀ n : Nat, ∀ s : List Char, s.length ≤ n →
    tokens s = (splitOnChar '\n' s).filterMap lineTok := by
  intro n
  induction n with
  | zero =>
    intro s hs
    have hnil : s = [] := List.length_eq_zero.mp (Nat.le_zero.mp hs)
    subst hnil
    rw [tokensNil]
    simp [splitOnChar, lineTok]
  | succ n ih =>
    intro s hs
    cases s with
    | nil =>
      rw [tokensNil]
      simp [splitOnChar, lineTok]
    | cons c rest =>
      have hrest : rest.length ≤ n := by simp at hs; omega
      rw [tokensCons]
      by_cases hsp : isSpaceRE2 c
      · rw [if_pos hsp]
        by_cases hnl : c = '\n'
        · subst hnl
          cases hsr : splitOnChar '\n' rest with
          | nil => exact absurd hsr (splitOnCharNeNil _ _)
          | cons a as =>
            have hsplit : splitOnChar '\n' ('\n' :: rest) = [] :: a :: as := by
              simp [splitOnChar, hsr]
            rw [hsplit, List.filterMap_cons]
            have hlt : lineTok ([] : List Char) = none := by simp [lineTok]
            rw [hlt, ← hsr, ← ih rest hrest]
        · cases hsr : splitOnChar '\n' rest with
          | nil => exact absurd hsr (splitOnCharNeNil _ _)
          | cons a as =>
            have hsplit : splitOnChar '\n' (c :: rest) = (c :: a) :: as := by
              simp [splitOnChar, hsr, hnl]
            rw [hsplit, List.filterMap_cons, lineTokSpaceCons c a hsp, ← List.filterMap_cons]
            rw [← hsr, ← ih rest hrest]
      · have hc : isSpaceRE2 c = false := by simpa using hsp
        have hnl : c ≠ '\n' := by
          intro he
          subst he
          simp [isSpaceRE2] at hc
        rw [if_neg hsp]
        cases hb : breakLine rest with
        | none =>
          have hnonl : '\n' ∉ rest := breakLineNoneNoNl rest hb
          have hbc : breakLine (c :: rest) = none := by
            simp only [breakLine, hnl, if_false, hb]
          rw [breakLineNoneSplit _ hbc]
          rw [List.filterMap_cons, lineTokTokenCons c rest hc]
          have hdrop : rest.dropWhile (fun x => x ≠ '\n') = [] := by
            rw [List.dropWhile_eq_nil_iff]
            intro x hx
            simp
            intro he
            subst he
            exact hnonl hx
          rw [hdrop, tokensNil]
          simp
        | some p =>
          obtain ⟨l0, r0⟩ := p
          obtain ⟨hdec, hnol0⟩ := breakLineSomeDecomp rest l0 r0 hb
          have hbc : breakLine (c :: rest) = some (c :: l0, r0) := by
            simp only [breakLine, hnl, if_false, hb]
          rw [breakLineSomeSplit _ _ _ hbc]
          rw [List.filterMap_cons, lineTokTokenCons c l0 hc]
          have htake : rest.takeWhile notSpace = l0.takeWhile notSpace := by
            rw [hdec]
            exact takeWhileAppendStop notSpace '\n' r0 (by simp [notSpace, isSpaceRE2]) l0
          have hdrop : rest.dropWhile (fun x => x ≠ '\n') = '\n' :: r0 := by
            rw [hdec]
            rw [dropWhileAppendAll _ _ l0 ?hall]
            · simp [List.dropWhile]
            case hall =>
              intro x hx
              simp
              intro he
              subst he
              exact hnol0 hx
          have hlenr0 : r0.length ≤ n := by
            have : rest.length = l0.length + 1 + r0.length := by simp [hdec]; omega
            omega
          rw [htake, hdrop, tokensCons]
          rw [if_pos (by simp [isSpaceRE2] : isSpaceRE2 '\n' = true)]
          rw [ih r0 hlenr0]

theorem tokensEq (s : List Char) :
    tokens s = (splitOnChar '\n' s).filterMap lineTok :=
  tokensEqAux s.length s le_rfl

/-- Central refinement fact for the `List`/`ListSorted` stdout parse: the
two regex passes of the code compute exactly the line-based member
extraction described by the specification. -/
theorem parseEqSpec (stdout : String) : parseMembers stdout = specMembers stdout := by
  rw [parseMembers, specMembers, tokensEq, stripSpec]

/-! ### The wrapper data model and operations. -/

/-- Result of one run of the external binary: captured stdout, captured
stderr, and the error of `exec.Cmd.Run` (`none` for a zero exit). -/
structure ExecResult where
  stdout : String
  stderr : String
  err : Option String
deriving DecidableEq

/-- One subprocess invocation: the data written to stdin (`none` when no
stdin pipe is set up) and the argument list passed after the binary path. -/
structure Invocation where
  stdin : Option String
  args : List String
deriving DecidableEq

/-- Behaviour of the external world: what one invocation of the `ipset`
binary returns.  The wrapper is deterministic relative to this oracle. -/
def Oracle := Invocation → ExecResult

/-- Invocation trace of an operation, in order. -/
abbrev Trace := List Invocation

/-- Argument or result string lists (`[]string` in Go). -/
abbrev Strs := List String

/-- Struct `Params` from `ipset.go`. -/
structure Params where
  hashFamily : String
  hashSize : Int
  maxElem : Int
  timeout : Int
deriving DecidableEq

/-- Struct `IPSet` from `ipset.go`. -/
structure IPSet where
  path : String
deriving DecidableEq

/-- Method `run` from `internal.go`: one invocation of the binary with the
given stdin data and arguments, returning captured stdout, stderr and the
run error.  (The stdin pipe creation, which cannot fail in this model, is
absorbed into the oracle.) -/
def IPSet.run (o : Oracle) (stdin : Option String) (cmd : Strs) : ExecResult × Trace :=
  (o ⟨stdin, cmd⟩, [⟨stdin, cmd⟩])

/-- Method `checkVersion` from `internal.go`. -/
def IPSet.checkVersion (o : Oracle) : Except String Bool × Trace :=
  match newVersion minIPSetVersion.data with
  | none => (Except.error "unable to parse minIPSetVersion", [])
  | some minV =>
    match IPSet.run o none ["--version"] with
    | (r, tr) =>
      match r.err with
      | some e => (Except.error ("unable to get ipset version: " ++ e ++ ": " ++ r.stderr), tr)
      | none =>
        match findVer r.stdout.data with
        | none => (Except.error "unable to parse ipset version", tr)
        | some m =>
          match newVersion ((m ++ ['.', '0']).drop 1) with
          | none => (Except.error "invalid version string", tr)
          | some v =>
            if lessThan v minV then (Except.ok false, tr) else (Except.ok true, tr)

/-- Function `New` from `ipset.go`; the result of `exec.LookPath("ipset")`
is passed in as `lp` (it consults the OS, not the `ipset` binary). -/
def IPSet.New (lp : Except String String) (o : Oracle) : Except String IPSet × Trace :=
  match lp with
  | Except.error e => (Except.error e, [])
  | Except.ok path =>
    match IPSet.checkVersion o with
    | (Except.error e, tr) =>
      (Except.error ("error validating ipset version: " ++ e), tr)
    | (Except.ok supported, tr) =>
      if supported then (Except.ok ⟨path⟩, tr)
      else (Except.error "ipset version is not supported", tr)

/-- Method `Create` from `ipset.go`.  The first component of the result is
the `Params` struct as it stands after the call (Go mutates it through
the pointer), the second the returned error, the third the trace.  The
check `strings.HasPrefix(hashType, "hash:")` is modelled character-wise
as `List.isPrefixOf` on the string data. -/
def IPSet.Create (o : Oracle) (name hashType : String) (p : Params) (opts : Strs) :
    Params × Option String × Trace :=
  let p1 : Params := { p with hashSize := if p.hashSize = 0 then 1024 else p.hashSize }
  let p2 : Params := { p1 with maxElem := if p1.maxElem = 0 then 65536 else p1.maxElem }
  let p3 : Params := { p2 with hashFamily := if p2.hashFamily = "" then "inet" else p2.hashFamily }
  if "hash:".data.isPrefixOf hashType.data then
    match IPSet.run o none (["create", name, hashType, "family", p3.hashFamily,
        "hashsize", toString p3.hashSize, "maxelem", toString p3.maxElem,
        "timeout", toString p3.timeout] ++ opts) with
    | (r, tr) =>
      match r.err with
      | some e => (p3, some (e ++ ": " ++ r.stderr), tr)
      | none => (p3, none, tr)
  else (p3, some ("not a hash type: " ++ hashType), [])

/-- Method `Add` from `ipset.go`. -/
def IPSet.Add (o : Oracle) (name entry : String) (opts : Strs) : Option String × Trace :=
  match IPSet.run o none (["add", name, entry] ++ opts) with
  | (r, tr) =>
    match r.err with
    | some e => (some (e ++ ": " ++ r.stderr), tr)
    | none => (none, tr)

/-- Method `Del` from `ipset.go`. -/
def IPSet.Del (o : Oracle) (name entry : String) (opts : Strs) : Option String × Trace :=
  match IPSet.run o none (["del", name, entry] ++ opts) with
  | (r, tr) =>
    match r.err with
    | some e => (some (e ++ ": " ++ r.stderr), tr)
    | none => (none, tr)

/-- Method `Test` from `ipset.go`. -/
def IPSet.Test (o : Oracle) (name entry : String) : (Bool × Option String) × Trace :=
  match IPSet.run o none ["test", name, entry] with
  | (r, tr) =>
    match r.err with
    | some e => ((false, some (e ++ ": " ++ r.stderr)), tr)
    | none =>
      if isSubstring "is in set".data r.stdout.data then ((true, none), tr)
      else ((false, some r.stderr), tr)

/-- Method `Destroy` from `ipset.go`. -/
def IPSet.Destroy (o : Oracle) (name : String) (opts : Strs) : Option String × Trace :=
  match IPSet.run o none (["destroy", name] ++ opts) with
  | (r, tr) =>
    match r.err with
    | some e => (some (e ++ ": " ++ r.stderr), tr)
    | none => (none, tr)

/-- Method `DestroyAll` from `ipset.go`. -/
def IPSet.DestroyAll (o : Oracle) : Option String × Trace :=
  match IPSet.run o none ["destroy"] with
  | (r, tr) =>
    match r.err with
    | some e => (some (e ++ ": " ++ r.stderr), tr)
    | none => (none, tr)

/-- Method `Flush` from `ipset.go`. -/
def IPSet.Flush (o : Oracle) (name : String) (opts : Strs) : Option String × Trace :=
  match IPSet.run o none (["flush", name] ++ opts) with
  | (r, tr) =>
    match r.err with
    | some e => (some (e ++ ": " ++ r.stderr), tr)
    | none => (none, tr)

/-- Method `FlushAll` from `ipset.go`. -/
def IPSet.FlushAll (o : Oracle) : Option String × Trace :=
  match IPSet.run o none ["flush"] with
  | (r, tr) =>
    match r.err with
    | some e => (some (e ++ ": " ++ r.stderr), tr)
    | none => (none, tr)

/-- Method `Swap` from `ipset.go`. -/
def IPSet.Swap (o : Oracle) (f t : String) : Option String × Trace :=
  match IPSet.run o none ["swap", f, t] with
  | (r, tr) =>
    match r.err with
    | some e => (some (e ++ ": " ++ r.stderr), tr)
    | none => (none, tr)

/-- Method `Save` from `ipset.go`. -/
def IPSet.Save (o : Oracle) : Except String String × Trace :=
  match IPSet.run o none ["save"] with
  | (r, tr) =>
    match r.err with
    | some e => (Except.error (e ++ ": " ++ r.stderr), tr)
    | none => (Except.ok r.stdout, tr)

/-- Method `Restore` from `ipset.go` (the only caller of `run` with a
non-nil stdin). -/
def IPSet.Restore (o : Oracle) (data : String) : Option String × Trace :=
  match IPSet.run o (some data) ["restore"] with
  | (r, tr) =>
    match r.err with
    | some e => (some (e ++ ": " ++ r.stderr), tr)
    | none => (none, tr)

/-- Entry loop of method `Replace` from `ipset.go`: `Add` each entry in
order, stopping at the first failure. -/
def IPSet.ReplaceAux (o : Oracle) (name : String) : Strs → Option String × Trace
  | [] => (none, [])
  | e :: rest =>
    match IPSet.Add o name e [] with
    | (some err, tr) => (some err, tr)
    | (none, tr) =>
      match IPSet.ReplaceAux o name rest with
      | (res, tr2) => (res, tr ++ tr2)

/-- Method `Replace` from `ipset.go`: `Flush` the set, then `Add` every
entry, propagating the first error. -/
def IPSet.Replace (o : Oracle) (name : String) (entries : Strs) : Option String × Trace :=
  match IPSet.Flush o name [] with
  | (some err, tr) => (some err, tr)
  | (none, tr) =>
    match IPSet.ReplaceAux o name entries with
    | (res, tr2) => (res, tr ++ tr2)

/-- Method `List` from `ipset.go`. -/
def IPSet.List (o : Oracle) (name : String) : Except String Strs × Trace :=
  match IPSet.run o none ["list", name] with
  | (r, tr) =>
    match r.err with
    | some e => (Except.error (e ++ ": " ++ r.stderr), tr)
    | none => (Except.ok (parseMembers r.stdout), tr)

/-- Method `ListSorted` from `ipset.go`: same as `List` (the two regex
post-processing lines are duplicated verbatim in the source) except for
the extra `-sorted` argument. -/
def IPSet.ListSorted (o : Oracle) (name : String) : Except String Strs × Trace :=
  match IPSet.run o none ["list", name, "-sorted"] with
  | (r, tr) =>
    match r.err with
    | some e => (Except.error (e ++ ": " ++ r.stderr), tr)
    | none => (Except.ok (parseMembers r.stdout), tr)

/-- Method `ListSets` from `ipset.go`. -/
def IPSet.ListSets (o : Oracle) : Except String Strs × Trace :=
  match IPSet.run o none ["list", "-n"] with
  | (r, tr) =>
    match r.err with
    | some e => (Except.error (e ++ ": " ++ r.stderr), tr)
    | none => (Except.ok ((splitOnChar '\n' r.stdout.data).map String.mk), tr)

/-! ### Helper definitions for the theorems. -/

/-- Error value an operation returns when its subprocess run fails:
`fmt.Errorf("%v: %s", err, stderr)`. -/
def errOf (r : ExecResult) : Option String :=
  match r.err with
  | some e => some (e ++ ": " ++ r.stderr)
  | none => none

/-- Tells whether `Add name e` would succeed under the oracle. -/
def addOk (o : Oracle) (name e : String) : Bool :=
  ((o ⟨none, ["add", name, e]⟩).err).isNone

/-- Oracle of an always-succeeding binary with empty output. -/
def stubOk : Oracle := fun _ => ⟨"", "", none⟩

/-- Oracle of an always-failing binary. -/
def stubFail : Oracle := fun _ => ⟨"", "E", some "exit status 1"⟩

/-- Oracle whose stdout reports a set membership. -/
def stubIsInSet : Oracle := fun _ => ⟨"1.2.3.4 is in set s.", "", none⟩

/-- Oracle that succeeds but whose stdout does not contain `is in set`. -/
def stubNoMatch : Oracle := fun _ => ⟨"bar", "boom", none⟩

/-- Oracle returning a typical `ipset list` output. -/
def stubList : Oracle := fun _ =>
  ⟨"Name: s\nType: hash:ip\nMembers:\n1.2.3.4\n5.6.7.8 timeout 100\n", "", none⟩

/-- Oracle returning a typical `ipset --version` output. -/
def stubVersion : Oracle := fun _ => ⟨"ipset v7.15, protocol version: 7", "", none⟩

theorem replaceAuxEq (o : Oracle) (name : String) : ∀ es : Strs,
    IPSet.ReplaceAux o name es =
      (((es.dropWhile (addOk o name)).head?).bind
         (fun e => errOf (o ⟨none, ["add", name, e]⟩)),
       (es.takeWhile (addOk o name) ++ (es.dropWhile (addOk o name)).take 1).map
         (fun e => (⟨none, ["add", name, e]⟩ : Invocation))) := by
  intro es
  induction es with
  | nil => simp [IPSet.ReplaceAux]
  | cons e rest ih =>
    cases he : (o ⟨none, ["add", name, e]⟩).err with
    | some msg =>
      have hok : addOk o name e = false := by simp [addOk, he]
      simp [IPSet.ReplaceAux, IPSet.Add, IPSet.run, he, hok, errOf,
        List.takeWhile_cons, List.dropWhile_cons]
    | none =>
      have hok : addOk o name e = true := by simp [addOk, he]
      simp [IPSet.ReplaceAux, IPSet.Add, IPSet.run, he, hok, errOf, ih,
        List.takeWhile_cons, List.dropWhile_cons]

/-! ### Claim theorems. -/

/-- C10: `Create` mutates the caller's `Params` through the pointer it
receives: on return, `HashSize`, `MaxElem` and `HashFamily` hold the
substituted defaults (1024, 65536, "inet") whenever they were zero-valued
on entry and are unchanged otherwise, and `Timeout` (the only other
field) is unchanged.  This holds whether or not the hash type check or
the subprocess succeeds.  (All other operations are pure in this
embedding: they take their arguments by value and return no modified
copy, so they cannot modify the receiver or their arguments.) -/
theorem c10CreateParamDefaults (o : Oracle) (name hashType : String) (p : Params) (opts : Strs) :
    (IPSet.Create o name hashType p opts).1 =
      ⟨if p.hashFamily = "" then "inet" else p.hashFamily,
       if p.hashSize = 0 then 1024 else p.hashSize,
       if p.maxElem = 0 then 65536 else p.maxElem,
       p.timeout⟩ := by
  simp only [IPSet.Create, IPSet.run]
  split
  · split <;> rfl
  · rfl

/-- C8: for a `hashType` that does not begin with `hash:`, `Create`
returns the error `not a hash type: <hashType>` and performs no
subprocess invocation at all (empty trace). -/
theorem c8CreateRejectsNonHash (o : Oracle) (name hashType : String) (p : Params) (opts : Strs)
    (h : "hash:".data.isPrefixOf hashType.data = false) :
    IPSet.Create o name hashType p opts =
      (⟨if p.hashFamily = "" then "inet" else p.hashFamily,
        if p.hashSize = 0 then 1024 else p.hashSize,
        if p.maxElem = 0 then 65536 else p.maxElem,
        p.timeout⟩,
       some ("not a hash type: " ++ hashType), []) := by
  simp [IPSet.Create, h]

/-- Witness for C8 at a concrete input. -/
theorem c8CreateRejectsNonHashWitness :
    ("hash:".data.isPrefixOf "nothash".data = false) ∧
    IPSet.Create stubOk "s" "nothash" ⟨"", 0, 0, 0⟩ [] =
      (⟨"inet", 1024, 65536, 0⟩, some "not a hash type: nothash", []) := by
  refine ⟨by decide, ?_⟩
  rw [c8CreateRejectsNonHash stubOk "s" "nothash" ⟨"", 0, 0, 0⟩ [] (by decide)]
  decide

/-- C2: for a `hashType` beginning with `hash:`, `Create` invokes the
subprocess exactly once, with argument list `create name hashType family
F hashsize H maxelem M timeout p.Timeout` followed by `opts`, where `F`,
`H`, `M` carry the default-substituted values and the timeout is passed
as-is (no default substitution, including 0). -/
theorem c2CreateArgs (o : Oracle) (name hashType : String) (p : Params) (opts : Strs)
    (h : "hash:".data.isPrefixOf hashType.data = true) :
    (IPSet.Create o name hashType p opts).2.2 =
      [⟨none, ["create", name, hashType, "family",
        (if p.hashFamily = "" then "inet" else p.hashFamily),
        "hashsize", toString (if p.hashSize = 0 then (1024 : Int) else p.hashSize),
        "maxelem", toString (if p.maxElem = 0 then (65536 : Int) else p.maxElem),
        "timeout", toString p.timeout] ++ opts⟩] := by
  simp only [IPSet.Create, IPSet.run, h, if_true]
  split <;> rfl

/-- Witness for C2 at a concrete input: zero-valued sizes and family get
the defaults, the zero timeout is passed through as `0`. -/
theorem c2CreateArgsWitness :
    ("hash:".data.isPrefixOf "hash:ip".data = true) ∧
    (IPSet.Create stubOk "s" "hash:ip" ⟨"", 0, 0, 0⟩ []).2.2 =
      [⟨none, ["create", "s", "hash:ip", "family", "inet", "hashsize", "1024",
        "maxelem", "65536", "timeout", "0"]⟩] := by
  refine ⟨by decide, ?_⟩
  rw [c2CreateArgs stubOk "s" "hash:ip" ⟨"", 0, 0, 0⟩ [] (by decide)]
  decide

/-- C5: `Test` returns `(true, nil)` iff the subprocess run of
`test name entry` succeeds and its stdout matches `is in set`; it never
returns `(false, nil)`; when the subprocess succeeds without the stdout
match the error is exactly the captured stderr; and when the subprocess
fails the error embeds the run error and the stderr. -/
theorem c5TestSemantics (o : Oracle) (name entry : String) :
    ((IPSet.Test o name entry).1 = (true, none) ↔
      ((o ⟨none, ["test", name, entry]⟩).err = none ∧
        isSubstring "is in set".data (o ⟨none, ["test", name, entry]⟩).stdout.data = true))
    ∧ ((IPSet.Test o name entry).1.2 = none → (IPSet.Test o name entry).1.1 = true)
    ∧ ((o ⟨none, ["test", name, entry]⟩).err = none →
        isSubstring "is in set".data (o ⟨none, ["test", name, entry]⟩).stdout.data = false →
        (IPSet.Test o name entry).1 = (false, some (o ⟨none, ["test", name, entry]⟩).stderr))
    ∧ (∀ e, (o ⟨none, ["test", name, entry]⟩).err = some e →
        (IPSet.Test o name entry).1 =
          (false, some (e ++ ": " ++ (o ⟨none, ["test", name, entry]⟩).stderr))) := by
  cases he : (o ⟨none, ["test", name, entry]⟩).err with
  | some e => simp [IPSet.Test, IPSet.run, he]
  | none =>
    cases hm : isSubstring "is in set".data (o ⟨none, ["test", name, entry]⟩).stdout.data <;>
      simp [IPSet.Test, IPSet.run, he, hm]

/-- Witness for C5: a stdout containing `is in set` yields `(true, nil)`;
a successful run without the match yields `false` and the stderr text. -/
theorem c5TestSemanticsWitness :
    (IPSet.Test stubIsInSet "s" "1.2.3.4").1 = (true, none) ∧
    (IPSet.Test stubNoMatch "s2" "e").1 = (false, some "boom") := by
  constructor
  · exact (c5TestSemantics stubIsInSet "s" "1.2.3.4").1.mpr ⟨rfl, by decide⟩
  · exact (c5TestSemantics stubNoMatch "s2" "e").2.2.1 rfl (by decide)

/-- C6: on a successful subprocess run, `List` returns exactly the
line-based member extraction of stdout: drop everything up to and
including the (last complete) `Members:` line, then return for each
remaining line its first maximal run of non-whitespace characters, in
line order (`specMembers`); on a failed run it propagates the error. -/
theorem c6ListParsesMembers (o : Oracle) (name : String) :
    (IPSet.List o name).1 =
      match (o ⟨none, ["list", name]⟩).err with
      | some e => Except.error (e ++ ": " ++ (o ⟨none, ["list", name]⟩).stderr)
      | none => Except.ok (specMembers (o ⟨none, ["list", name]⟩).stdout) := by
  cases he : (o ⟨none, ["list", name]⟩).err with
  | some e => simp [IPSet.List, IPSet.run, he]
  | none => simp [IPSet.List, IPSet.run, he, parseEqSpec]

/-- Sanity check of the member parse on a typical `ipset list` output. -/
theorem parseMembersSample :
    parseMembers "Name: s\nType: hash:ip\nMembers:\n1.2.3.4\n5.6.7.8 timeout 100\n" =
      ["1.2.3.4", "5.6.7.8"] := by
  rw [parseEqSpec]
  decide

/-- C7: `ListSorted` differs from `List` only in passing the extra
`-sorted` flag: the invocations are `list name -sorted` versus
`list name`, and the stdout post-processing is identical, so equal
subprocess results yield equal returned member slices. -/
theorem c7ListSortedEquiv (o1 o2 : Oracle) (name : String) :
    (IPSet.List o1 name).2 = [⟨none, ["list", name]⟩]
    ∧ (IPSet.ListSorted o2 name).2 = [⟨none, ["list", name, "-sorted"]⟩]
    ∧ (o1 ⟨none, ["list", name]⟩ = o2 ⟨none, ["list", name, "-sorted"]⟩ →
        (IPSet.List o1 name).1 = (IPSet.ListSorted o2 name).1) := by
  refine ⟨?_, ?_, ?_⟩
  · cases he : (o1 ⟨none, ["list", name]⟩).err <;> simp [IPSet.List, IPSet.run, he]
  · cases he : (o2 ⟨none, ["list", name, "-sorted"]⟩).err <;>
      simp [IPSet.ListSorted, IPSet.run, he]
  · intro heq
    cases he : (o2 ⟨none, ["list", name, "-sorted"]⟩).err <;>
      simp [IPSet.List, IPSet.ListSorted, IPSet.run, heq, he]

/-- Witness for C7: under one oracle answering both invocations alike, the
two operations return the same members. -/
theorem c7ListSortedEquivWitness :
    (IPSet.List stubList "s").1 = (IPSet.ListSorted stubList "s").1 :=
  (c7ListSortedEquiv stubList stubList "s").2.2 rfl

/-- C9: `Replace` first invokes `flush name`; if that fails it stops with
the flush error; otherwise it invokes `add name e` for the entries in
order up to and including the first failing one (entries after it are
never attempted, as the trace shows), and returns the error of the first
failing `Add`, or nil when all succeed. -/
theorem c9ReplaceSequence (o : Oracle) (name : String) (es : Strs) :
    IPSet.Replace o name es =
      match (o ⟨none, ["flush", name]⟩).err with
      | some e =>
        (some (e ++ ": " ++ (o ⟨none, ["flush", name]⟩).stderr), [⟨none, ["flush", name]⟩])
      | none =>
        (((es.dropWhile (addOk o name)).head?).bind
           (fun e => errOf (o ⟨none, ["add", name, e]⟩)),
         ⟨none, ["flush", name]⟩ ::
           (es.takeWhile (addOk o name) ++ (es.dropWhile (addOk o name)).take 1).map
             (fun e => (⟨none, ["add", name, e]⟩ : Invocation))) := by
  cases hf : (o ⟨none, ["flush", name]⟩).err with
  | some e => simp [IPSet.Replace, IPSet.Flush, IPSet.run, hf]
  | none => simp [IPSet.Replace, IPSet.Flush, IPSet.run, hf, replaceAuxEq, errOf]

/-- Sanity check of the version extraction. -/
theorem extractVersionSample : extractVersion "ipset v6.38" = some ⟨6, 38, 0, ""⟩ := by decide

/-- C1: given a successful `exec.LookPath`, `New` succeeds exactly when
the `ipset --version` run succeeds and its stdout contains a
`v[0-9]+\.[0-9]+` substring whose major.minor version, extended with
patch level 0, parses and is not less than the semantic version 6.0.0;
when the extracted version is lower, or no such substring exists, or the
version does not parse, or the subprocess fails, `New` returns an
error. -/
theorem c1NewVersionGate (path : String) (o : Oracle) :
    ((IPSet.New (Except.ok path) o).1).isOk = true ↔
      ((o ⟨none, ["--version"]⟩).err = none ∧
        ∃ v, extractVersion (o ⟨none, ["--version"]⟩).stdout = some v ∧
          lessThan v ⟨6, 0, 0, ""⟩ = false) := by
  have hmin : newVersion minIPSetVersion.data = some ⟨6, 0, 0, ""⟩ := by decide
  cases he : (o ⟨none, ["--version"]⟩).err with
  | some e =>
    simp [IPSet.New, IPSet.checkVersion, IPSet.run, hmin, he, Except.isOk, Except.toBool]
  | none =>
    cases hf : findVer (o ⟨none, ["--version"]⟩).stdout.data with
    | none =>
      simp [IPSet.New, IPSet.checkVersion, IPSet.run, hmin, he, hf, extractVersion,
        Except.isOk, Except.toBool]
    | some m =>
      cases hv : newVersion ((m ++ ['.', '0']).tail) with
      | none =>
        simp [IPSet.New, IPSet.checkVersion, IPSet.run, hmin, he, hf, hv, extractVersion,
          Except.isOk, Except.toBool, List.drop_one]
      | some v =>
        cases hlt : lessThan v ⟨6, 0, 0, ""⟩ with
        | true =>
          simp [IPSet.New, IPSet.checkVersion, IPSet.run, hmin, he, hf, hv, hlt,
            extractVersion, Except.isOk, Except.toBool, List.drop_one]
        | false =>
          simp [IPSet.New, IPSet.checkVersion, IPSet.run, hmin, he, hf, hv, hlt,
            extractVersion, Except.isOk, Except.toBool, List.drop_one]

/-- C3 counterexample: `Test` under an oracle whose subprocess run
SUCCEEDS (nil error) with a stdout lacking `is in set` still returns a
non-nil error, refuting "an error is returned if and only if the invoked
subprocess reports failure". -/
theorem c3Counterexample :
    (stubNoMatch ⟨none, ["test", "s", "e"]⟩).err = none ∧
    (IPSet.Test stubNoMatch "s" "e").1.2 ≠ none := by
  exact ⟨rfl, by decide⟩

/-- C3 (amended): for every operation, when the invoked subprocess
reports failure the returned error is exactly the propagation of the run
error joined with the captured stderr (`errOf`), and an operation
returns a non-nil error in exactly two further situations: `Create`
rejects a `hashType` without the `hash:` prefix before invoking any
subprocess, and `Test` returns the captured stderr as an error when its
subprocess succeeds but stdout lacks `is in set`. -/
theorem c3ErrorPropagation (o : Oracle) (name entry f t data hashType : String)
    (p : Params) (opts es : Strs) :
    ((IPSet.Add o name entry opts).1 = errOf (o ⟨none, ["add", name, entry] ++ opts⟩))
    ∧ ((IPSet.Del o name entry opts).1 = errOf (o ⟨none, ["del", name, entry] ++ opts⟩))
    ∧ ((IPSet.Test o name entry).1.2 =
        match (o ⟨none, ["test", name, entry]⟩).err with
        | some e => some (e ++ ": " ++ (o ⟨none, ["test", name, entry]⟩).stderr)
        | none =>
          if isSubstring "is in set".data (o ⟨none, ["test", name, entry]⟩).stdout.data
          then none else some (o ⟨none, ["test", name, entry]⟩).stderr)
    ∧ ((IPSet.Destroy o name opts).1 = errOf (o ⟨none, ["destroy", name] ++ opts⟩))
    ∧ ((IPSet.DestroyAll o).1 = errOf (o ⟨none, ["destroy"]⟩))
    ∧ ((IPSet.List o name).1 =
        match (o ⟨none, ["list", name]⟩).err with
        | some e => Except.error (e ++ ": " ++ (o ⟨none, ["list", name]⟩).stderr)
        | none => Except.ok (parseMembers (o ⟨none, ["list", name]⟩).stdout))
    ∧ ((IPSet.ListSorted o name).1 =
        match (o ⟨none, ["list", name, "-sorted"]⟩).err with
        | some e => Except.error (e ++ ": " ++ (o ⟨none, ["list", name, "-sorted"]⟩).stderr)
        | none => Except.ok (parseMembers (o ⟨none, ["list", name, "-sorted"]⟩).stdout))
    ∧ ((IPSet.ListSets o).1 =
        match (o ⟨none, ["list", "-n"]⟩).err with
        | some e => Except.error (e ++ ": " ++ (o ⟨none, ["list", "-n"]⟩).stderr)
        | none =>
          Except.ok ((splitOnChar '\n' (o ⟨none, ["list", "-n"]⟩).stdout.data).map String.mk))
    ∧ ((IPSet.Flush o name opts).1 = errOf (o ⟨none, ["flush", name] ++ opts⟩))
    ∧ ((IPSet.FlushAll o).1 = errOf (o ⟨none, ["flush"]⟩))
    ∧ ((IPSet.Swap o f t).1 = errOf (o ⟨none, ["swap", f, t]⟩))
    ∧ ((IPSet.Save o).1 =
        match (o ⟨none, ["save"]⟩).err with
        | some e => Except.error (e ++ ": " ++ (o ⟨none, ["save"]⟩).stderr)
        | none => Except.ok (o ⟨none, ["save"]⟩).stdout)
    ∧ ((IPSet.Restore o data).1 = errOf (o ⟨some data, ["restore"]⟩))
    ∧ ((IPSet.Create o name hashType p opts).2.1 =
        if "hash:".data.isPrefixOf hashType.data then
          errOf (o ⟨none, ["create", name, hashType, "family",
            (if p.hashFamily = "" then "inet" else p.hashFamily),
            "hashsize", toString (if p.hashSize = 0 then (1024 : Int) else p.hashSize),
            "maxelem", toString (if p.maxElem = 0 then (65536 : Int) else p.maxElem),
            "timeout", toString p.timeout] ++ opts⟩)
        else some ("not a hash type: " ++ hashType))
    ∧ ((IPSet.Replace o name es).1 =
        match (o ⟨none, ["flush", name]⟩).err with
        | some e => some (e ++ ": " ++ (o ⟨none, ["flush", name]⟩).stderr)
        | none =>
          ((es.dropWhile (addOk o name)).head?).bind
            (fun e => errOf (o ⟨none, ["add", name, e]⟩))) := by
  refine ⟨?_, ?_, ?_, ?_, ?_, ?_, ?_, ?_, ?_, ?_, ?_, ?_, ?_, ?_, ?_⟩
  · cases he : (o ⟨none, "add" :: name :: entry :: opts⟩).err <;>
      simp [IPSet.Add, IPSet.run, errOf, he]
  · cases he : (o ⟨none, "del" :: name :: entry :: opts⟩).err <;>
      simp [IPSet.Del, IPSet.run, errOf, he]
  · cases he : (o ⟨none, ["test", name, entry]⟩).err with
    | some e => simp [IPSet.Test, IPSet.run, he]
    | none =>
      cases hm : isSubstring "is in set".data (o ⟨none, ["test", name, entry]⟩).stdout.data <;>
        simp [IPSet.Test, IPSet.run, he, hm]
  · cases he : (o ⟨none, "destroy" :: name :: opts⟩).err <;>
      simp [IPSet.Destroy, IPSet.run, errOf, he]
  · cases he : (o ⟨none, ["destroy"]⟩).err <;>
      simp [IPSet.DestroyAll, IPSet.run, errOf, he]
  · cases he : (o ⟨none, ["list", name]⟩).err <;>
      simp [IPSet.List, IPSet.run, he]
  · cases he : (o ⟨none, ["list", name, "-sorted"]⟩).err <;>
      simp [IPSet.ListSorted, IPSet.run, he]
  · cases he : (o ⟨none, ["list", "-n"]⟩).err <;>
      simp [IPSet.ListSets, IPSet.run, he]
  · cases he : (o ⟨none, "flush" :: name :: opts⟩).err <;>
      simp [IPSet.Flush, IPSet.run, errOf, he]
  · cases he : (o ⟨none, ["flush"]⟩).err <;>
      simp [IPSet.FlushAll, IPSet.run, errOf, he]
  · cases he : (o ⟨none, ["swap", f, t]⟩).err <;>
      simp [IPSet.Swap, IPSet.run, errOf, he]
  · cases he : (o ⟨none, ["save"]⟩).err <;>
      simp [IPSet.Save, IPSet.run, he]
  · cases he : (o ⟨some data, ["restore"]⟩).err <;>
      simp [IPSet.Restore, IPSet.run, errOf, he]
  · by_cases h : "hash:".data.isPrefixOf hashType.data
    · rw [if_pos h]
      cases he : (o ⟨none, "create" :: name :: hashType :: "family" ::
          (if p.hashFamily = "" then "inet" else p.hashFamily) ::
          "hashsize" :: toString (if p.hashSize = 0 then (1024 : Int) else p.hashSize) ::
          "maxelem" :: toString (if p.maxElem = 0 then (65536 : Int) else p.maxElem) ::
          "timeout" :: toString p.timeout :: opts⟩).err <;>
        simp [IPSet.Create, IPSet.run, errOf, h, he]
    · rw [if_neg h]
      simp [IPSet.Create, h]
  · cases hf : (o ⟨none, ["flush", name]⟩).err with
    | some e => simp [IPSet.Replace, IPSet.Flush, IPSet.run, hf]
    | none => simp [IPSet.Replace, IPSet.Flush, IPSet.run, hf, replaceAuxEq, errOf]

/-- C4 counterexample: one call of `Replace` with a single entry under an
always-succeeding oracle performs two subprocess invocations (one
`flush`, one `add`), refuting "each single call of the operation results
in exactly one invocation of the ipset subprocess" for `Replace`. -/
theorem c4Counterexample :
    (IPSet.Replace stubOk "s" ["a"]).2.length = 2 ∧
    ¬ (IPSet.Replace stubOk "s" ["a"]).2.length = 1 := by
  exact ⟨by decide, by decide⟩

/-- C4 (amended): each single call of `Add`, `Del`, `Test`, `Destroy`,
`List`, `Flush`, `Swap`, `Save` or `Restore` results in exactly one
subprocess invocation, with only argument formatting before and regex
post-processing after; `Create` results in exactly one invocation when
`hashType` begins with `hash:` and zero otherwise; and `Replace` is a
composite, invoking the subprocess once for `Flush` plus once per
attempted `Add` (the entries up to and including the first failing one,
none when the `Flush` fails). -/
theorem c4SingleInvocation (o : Oracle) (name entry f t data hashType : String)
    (p : Params) (opts es : Strs) :
    ((IPSet.Add o name entry opts).2 = [⟨none, ["add", name, entry] ++ opts⟩])
    ∧ ((IPSet.Del o name entry opts).2 = [⟨none, ["del", name, entry] ++ opts⟩])
    ∧ ((IPSet.Test o name entry).2 = [⟨none, ["test", name, entry]⟩])
    ∧ ((IPSet.Destroy o name opts).2 = [⟨none, ["destroy", name] ++ opts⟩])
    ∧ ((IPSet.List o name).2 = [⟨none, ["list", name]⟩])
    ∧ ((IPSet.Flush o name opts).2 = [⟨none, ["flush", name] ++ opts⟩])
    ∧ ((IPSet.Swap o f t).2 = [⟨none, ["swap", f, t]⟩])
    ∧ ((IPSet.Save o).2 = [⟨none, ["save"]⟩])
    ∧ ((IPSet.Restore o data).2 = [⟨some data, ["restore"]⟩])
    ∧ ((IPSet.Create o name hashType p opts).2.2 =
        if "hash:".data.isPrefixOf hashType.data then
          [⟨none, ["create", name, hashType, "family",
            (if p.hashFamily = "" then "inet" else p.hashFamily),
            "hashsize", toString (if p.hashSize = 0 then (1024 : Int) else p.hashSize),
            "maxelem", toString (if p.maxElem = 0 then (65536 : Int) else p.maxElem),
            "timeout", toString p.timeout] ++ opts⟩]
        else [])
    ∧ ((IPSet.Replace o name es).2 =
        ⟨none, ["flush", name]⟩ ::
          (if ((o ⟨none, ["flush", name]⟩).err).isNone then
            (es.takeWhile (addOk o name) ++ (es.dropWhile (addOk o name)).take 1).map
              (fun e => (⟨none, ["add", name, e]⟩ : Invocation))
          else [])) := by
  refine ⟨?_, ?_, ?_, ?_, ?_, ?_, ?_, ?_, ?_, ?_, ?_⟩
  · cases he : (o ⟨none, "add" :: name :: entry :: opts⟩).err <;>
      simp [IPSet.Add, IPSet.run, he]
  · cases he : (o ⟨none, "del" :: name :: entry :: opts⟩).err <;>
      simp [IPSet.Del, IPSet.run, he]
  · cases he : (o ⟨none, ["test", name, entry]⟩).err with
    | some e => simp [IPSet.Test, IPSet.run, he]
    | none =>
      cases hm : isSubstring "is in set".data (o ⟨none, ["test", name, entry]⟩).stdout.data <;>
        simp [IPSet.Test, IPSet.run, he, hm]
  · cases he : (o ⟨none, "destroy" :: name :: opts⟩).err <;>
      simp [IPSet.Destroy, IPSet.run, he]
  · cases he : (o ⟨none, ["list", name]⟩).err <;> simp [IPSet.List, IPSet.run, he]
  · cases he : (o ⟨none, "flush" :: name :: opts⟩).err <;>
      simp [IPSet.Flush, IPSet.run, he]
  · cases he : (o ⟨none, ["swap", f, t]⟩).err <;> simp [IPSet.Swap, IPSet.run, he]
  · cases he : (o ⟨none, ["save"]⟩).err <;> simp [IPSet.Save, IPSet.run, he]
  · cases he : (o ⟨some data, ["restore"]⟩).err <;> simp [IPSet.Restore, IPSet.run, he]
  · by_cases h : "hash:".data.isPrefixOf hashType.data
    · rw [if_pos h]
      cases he : (o ⟨none, "create" :: name :: hashType :: "family" ::
          (if p.hashFamily = "" then "inet" else p.hashFamily) ::
          "hashsize" :: toString (if p.hashSize = 0 then (1024 : Int) else p.hashSize) ::
          "maxelem" :: toString (if p.maxElem = 0 then (65536 : Int) else p.maxElem) ::
          "timeout" :: toString p.timeout :: opts⟩).err <;>
        simp [IPSet.Create, IPSet.run, h, he]
    · rw [if_neg h]
      simp [IPSet.Create, h]
  · cases hf : (o ⟨none, ["flush", name]⟩).err with
    | some e => simp [IPSet.Replace, IPSet.Flush, IPSet.run, hf]
    | none => simp [IPSet.Replace, IPSet.Flush, IPSet.run, hf, replaceAuxEq]
